import Mathlib

/-!
Shallow embedding of the `argh` command-line option library.

The embedding follows the richest variant of the source (the templated
header whose `parse` also collects remaining arguments); its option-state
logic is line-for-line the same as in the plain `argh.h` header, which the
simpler claims reference.  C++ machine integers are modelled as `Int`
(the concrete values appearing in the development are tiny, far from any
overflow), strings as `String`, `std::vector` as `List`, and the host-owned
bound variable of each option as a cell stored inside the option record
(bindings are taken to be distinct variables, as in every use in the
repository's demos and tests).  File input for `load` is abstracted as
`Option (List String)`: `none` models a stream whose `good()` check fails,
`some lines` models a readable file already cut into lines by
`std::getline`.  The process environment for `parseEnv` is abstracted as a
lookup function `String → Option String` standing for `getenv`.
-/

set_option autoImplicit false

/-- The six whitespace characters of the default C locale, as recognised by
the skip-whitespace step of `std::stringstream` extraction. -/
def cppIsSpace (c : Char) : Bool :=
  c = ' ' || c = '\t' || c = '\n' || c = '\x0b' || c = '\x0c' || c = '\r'

/-- Numeric value of a list of decimal digit characters. -/
def digitsVal (ds : List Char) : Nat :=
  ds.foldl (fun n c => 10 * n + (c.toNat - '0'.toNat)) 0

/-- The sign step of numeric stream extraction: consume one leading `-` or
`+`, reporting whether the number is negated. -/
def signSplit (cs : List Char) : Bool × List Char :=
  match cs with
  | '-' :: rest => (true, rest)
  | '+' :: rest => (false, rest)
  | rest => (false, rest)

/-- Models `std::stringstream ss(val); ss >> var;` for an integer target
under C++11 stream semantics: leading whitespace is skipped, an optional
sign and a run of decimal digits are read; if no digit is read the
extraction fails and (since C++11) stores zero in the target. -/
def readIntChars (cs : List Char) : Int :=
  let sr := signSplit (cs.dropWhile cppIsSpace)
  let ds := sr.2.takeWhile Char.isDigit
  if ds.isEmpty then 0
  else if sr.1 then -(digitsVal ds : Int) else (digitsVal ds : Int)

/-- String version of `readIntChars`. -/
def readIntFromStream (s : String) : Int :=
  readIntChars s.toList

/-- The extraction-failure condition of `ss >> var` for an integer target:
after skipping whitespace and an optional sign, no decimal digit follows. -/
def intConvFails (s : String) : Bool :=
  ((signSplit (s.toList.dropWhile cppIsSpace)).2.takeWhile Char.isDigit).isEmpty

/-- One run of the loop `for (string s; std::getline(ss, s, delim);)` over
the remaining characters of the stream, with `acc` the characters of the
segment read so far (in reverse).  `std::getline` consumes up to and
including the next delimiter; a call that starts at end-of-input extracts
nothing, fails, and ends the loop, so a trailing delimiter yields no empty
final segment. -/
def getlineCore (d : Char) : List Char → List Char → List (List Char)
  | [], acc => [acc.reverse]
  | c :: cs, acc =>
    if c = d then
      acc.reverse :: (match cs with
        | [] => []
        | _ :: _ => getlineCore d cs [])
    else getlineCore d cs (c :: acc)

/-- The list of segments produced by the `std::getline` splitting loop on
string `s` with delimiter `d`.  An empty string yields no segments (the
very first `getline` call fails at once). -/
def getlineSplit (d : Char) (s : String) : List String :=
  match s.toList with
  | [] => []
  | c :: cs => (getlineCore d (c :: cs) []).map (fun seg => String.mk seg)

/-- The bound storage cell of an option, tagged by the option's concrete
kind: scalar integer (`OptionImpl<int>`), scalar text (`OptionStringImpl`),
multi-value integer (`MultiOptionImpl<int>`), multi-value text
(`MultiOptionStringImpl`), or flag (`FlagImpl`). -/
inductive OptVal where
  | intCell (v : Int)
  | strCell (v : String)
  | multiIntCell (v : List Int)
  | multiStrCell (v : List String)
  | flagCell (v : Bool)
deriving DecidableEq, Repr

/-- One registered option: the fields of the `Option` base class
(`m_name`, `m_required`, `m_parsed`, `m_msg`) together with the bound cell
and, for multi-value options, the captured delimiter (`m_delim`; scalar
options ignore it). -/
structure Opt where
  name : String
  required : Bool
  parsed : Bool
  delim : Char
  msg : String
  val : OptVal
deriving DecidableEq, Repr

/-- The `setValue` virtual dispatch: what the matching concrete class
writes into the bound cell for incoming text `s`.
`OptionImpl<int>::setValue` runs stream extraction; `OptionStringImpl`
assigns verbatim; the two multi-value classes clear the vector and push one
element per `getline` segment; `FlagImpl::setValue` is a no-op. -/
def cellWrite (d : Char) (c : OptVal) (s : String) : OptVal :=
  match c with
  | .intCell _ => .intCell (readIntFromStream s)
  | .strCell _ => .strCell s
  | .multiIntCell _ => .multiIntCell ((getlineSplit d s).map readIntFromStream)
  | .multiStrCell _ => .multiStrCell (getlineSplit d s)
  | .flagCell b => .flagCell b

/-- Models `o->setValue(s)`. -/
def setValueOpt (o : Opt) (s : String) : Opt :=
  { o with val := cellWrite o.delim o.val s }

/-- Models `o->setParsed(p)`: the base class records `p`; `FlagImpl::setParsed`
additionally writes `p` through to the bound boolean. -/
def setParsedOpt (o : Opt) (p : Bool) : Opt :=
  match o.val with
  | .flagCell _ => { o with parsed := p, val := .flagCell p }
  | _ => { o with parsed := p }

/-- The `Argh` registry: configured delimiter, registered options in
registration order, and the `m_remaining_args` vector of the richest
variant. -/
structure Argh where
  delim : Char
  options : List Opt
  remainingArgs : List String
deriving DecidableEq, Repr

/-- Models `Argh(delim)`: fresh registry, no options, empty remainder. -/
def Argh.empty (d : Char) : Argh :=
  { delim := d, options := [], remainingArgs := [] }

/-- Models `addOption<int>(var, default_val, name, required, msg)`: appends an
`OptionImpl<int>` whose constructor writes the default into the cell. -/
def Argh.addOptionInt (a : Argh) (default_val : Int) (name : String)
    (required : Bool) (msg : String) : Argh :=
  { a with options := a.options ++
      [{ name := name, required := required, parsed := false, delim := a.delim,
         msg := msg, val := .intCell default_val }] }

/-- Models `addOption(var, default_val, name, required, msg)` for `std::string`:
appends an `OptionStringImpl`, default assigned verbatim. -/
def Argh.addOptionString (a : Argh) (default_val : String) (name : String)
    (required : Bool) (msg : String) : Argh :=
  { a with options := a.options ++
      [{ name := name, required := required, parsed := false, delim := a.delim,
         msg := msg, val := .strCell default_val }] }

/-- Models `addMultiOption<int>(var, default_vals, name, required, msg)`: the
`MultiOptionImpl` constructor calls `setValue(default_vals)`, splitting the
default text with the registry delimiter and coercing each segment. -/
def Argh.addMultiOptionInt (a : Argh) (default_vals : String) (name : String)
    (required : Bool) (msg : String) : Argh :=
  { a with options := a.options ++
      [{ name := name, required := required, parsed := false, delim := a.delim,
         msg := msg,
         val := .multiIntCell ((getlineSplit a.delim default_vals).map readIntFromStream) }] }

/-- Models `addMultiOption(var, default_vals, name, required, msg)` for
`std::vector<std::string>`: default text split with the registry delimiter,
segments stored verbatim. -/
def Argh.addMultiOptionString (a : Argh) (default_vals : String) (name : String)
    (required : Bool) (msg : String) : Argh :=
  { a with options := a.options ++
      [{ name := name, required := required, parsed := false, delim := a.delim,
         msg := msg, val := .multiStrCell (getlineSplit a.delim default_vals) }] }

/-- Models `addFlag(flag, name, msg)`: the `FlagImpl` constructor clears the bound
boolean; base-class construction leaves `parsed` and `required` false. -/
def Argh.addFlag (a : Argh) (name : String) (msg : String) : Argh :=
  { a with options := a.options ++
      [{ name := name, required := false, parsed := false, delim := a.delim,
         msg := msg, val := .flagCell false }] }

/-- The body of `parse`'s inner loop for one option `o` at token position
`i`: on a name match, mark the option parsed and, if a following token
exists, apply it as the value. -/
def parseOptAt (ts : List String) (i : Nat) (o : Opt) : Opt :=
  if ts.getD i "" = o.name then
    let o1 := setParsedOpt o true
    if i + 1 < ts.length then setValueOpt o1 (ts.getD (i + 1) "") else o1
  else o

/-- The body of `parse`'s inner loop at token position `i` for one option,
threading the state of the pass: the options already processed and the
shared `is_option` mask, which gets position `i` (and `i+1` when a value
token is consumed) set to `true` on a match. -/
def parseInnerStep (ts : List String) (i : Nat)
    (st : List Opt × List Bool) (o : Opt) : List Opt × List Bool :=
  if ts.getD i "" = o.name then
    let o1 := setParsedOpt o true
    if i + 1 < ts.length then
      (st.1 ++ [setValueOpt o1 (ts.getD (i + 1) "")], (st.2.set i true).set (i + 1) true)
    else
      (st.1 ++ [o1], st.2.set i true)
  else (st.1 ++ [o], st.2)

/-- The inner loop `for (auto o : m_options)` of `parse` at token position
`i`. -/
def parseInner (ts : List String) (i : Nat) (os : List Opt) (mask : List Bool) :
    List Opt × List Bool :=
  os.foldl (parseInnerStep ts i) ([], mask)

/-- The effect of one matched token position `i` on the `is_option` mask:
entry `i` is set, and entry `i+1` as well when a following token exists. -/
def maskMark (ts : List String) (i : Nat) (m : List Bool) : List Bool :=
  if i + 1 < ts.length then (m.set i true).set (i + 1) true else m.set i true

/-- Models `Argh::parse(argc, argv)` of the richest variant: the double loop over
token positions and options, then the pass that appends every token whose
`is_option` entry stayed `false` to `m_remaining_args` (the vector is not
cleared first). -/
def Argh.parse (a : Argh) (ts : List String) : Argh :=
  let n := ts.length
  let res := (List.range n).foldl (fun st i => parseInner ts i st.1 st.2)
    (a.options, List.replicate n false)
  let rem := ((List.range n).filter (fun i => !(res.2.getD i false))).map
    (fun i => ts.getD i "")
  { a with options := res.1, remainingArgs := a.remainingArgs ++ rem }

/-- Models `Argh::getRemainingArguments()`. -/
def Argh.getRemainingArguments (a : Argh) : List String :=
  a.remainingArgs

/-- Models `Argh::parseEnv()`, with `getenv` abstracted as `env`: every option
whose name is bound in the environment is marked parsed and receives the
environment value. -/
def Argh.parseEnv (a : Argh) (env : String → Option String) : Argh :=
  { a with options := a.options.map (fun o =>
      match env o.name with
      | some s => setValueOpt (setParsedOpt o true) s
      | none => o) }

/-- Models `Argh::isParsed(name)`. -/
def Argh.isParsed (a : Argh) (name : String) : Bool :=
  a.options.any (fun o => decide (name = o.name) && o.parsed)

/-- Models `Argh::load(filename)`, the file system abstracted as
`Option (List String)`: an unopenable file (`!ifs.good()`) returns `false`
and touches nothing; otherwise the lines are fed to `parse` one token per
line and `load` returns `true`. -/
def Argh.load (a : Argh) (file : Option (List String)) : Argh × Bool :=
  match file with
  | none => (a, false)
  | some lines => (a.parse lines, true)

/-- Does the token at position `i` match some registered option name?
(Spec-side reading of the `is_option[i] = true` assignments.) -/
def matchTok (os : List Opt) (ts : List String) (i : Nat) : Bool :=
  os.any (fun o => decide (ts.getD i "" = o.name))

/-- Spec-side description of one parse call's unmatched tokens: the tokens
that neither matched a registered option name nor immediately followed a
token that did. -/
def unmatchedTokens (os : List Opt) (ts : List String) : List String :=
  ((List.range ts.length).filter (fun i =>
      !(matchTok os ts i || (decide (0 < i) && matchTok os ts (i - 1))))).map
    (fun i => ts.getD i "")

/-- Spec-side split following the claim's words for multi-value options:
the text is cut at every occurrence of the delimiter, each segment between
(or beside) delimiters becoming one entry, so the result always has one
more entry than there are delimiter occurrences. -/
def splitEvery (d : Char) : List Char → List (List Char)
  | [] => [[]]
  | c :: cs =>
    if c = d then [] :: splitEvery d cs
    else
      match splitEvery d cs with
      | [] => [[c]]
      | s :: ss => (c :: s) :: ss

/-- The amended description of the code's split: cut at every delimiter
occurrence, except that empty text yields no segments and the empty
segment after a trailing delimiter yields no segment. -/
def amendedSegs (d : Char) (s : String) : List (List Char) :=
  if s.toList = [] then []
  else if s.toList.getLast? = some d then (splitEvery d s.toList).dropLast
  else splitEvery d s.toList

/-- Was the name `nm` matched by some token position in `l`? -/
def seenIn (ts : List String) (nm : String) (l : List Nat) : Bool :=
  l.any (fun i => decide (ts.getD i "" = nm))

/-- The value text applied by the last position in `l` that matches `nm`
and has a following token, starting from `acc`. -/
def lastValIn (ts : List String) (nm : String) (l : List Nat)
    (acc : Option String) : Option String :=
  l.foldl
    (fun acc i =>
      if ts.getD i "" = nm ∧ i + 1 < ts.length then some (ts.getD (i + 1) "")
      else acc)
    acc

/-- The cumulative effect of one whole parse call on a single option. -/
def optRun (ts : List String) (o : Opt) : Opt :=
  (List.range ts.length).foldl (fun o i => parseOptAt ts i o) o

/-- Closed-form description of `optRun`: the option is marked parsed iff
some token matched its name (a flag's cell follows suit), and its cell
holds the value text of the last match that had a following token. -/
def optRunSpec (ts : List String) (l : List Nat) (o : Opt) : Opt :=
  { o with
    parsed := o.parsed || seenIn ts o.name l,
    val :=
      match o.val with
      | .flagCell b => .flagCell (b || seenIn ts o.name l)
      | v =>
        match lastValIn ts o.name l none with
        | none => v
        | some s => cellWrite o.delim v s }

/-- One registration call on the registry, for stating properties of whole
registration sequences. -/
inductive RegCmd where
  | intOpt (default_val : Int) (name : String) (required : Bool) (msg : String)
  | strOpt (default_val : String) (name : String) (required : Bool) (msg : String)
  | multiIntOpt (default_vals : String) (name : String) (required : Bool) (msg : String)
  | multiStrOpt (default_vals : String) (name : String) (required : Bool) (msg : String)
  | flagOpt (name : String) (msg : String)
deriving DecidableEq, Repr

/-- Dispatch one registration command to the corresponding `add` call. -/
def applyReg (a : Argh) : RegCmd → Argh
  | .intOpt d nm r m => a.addOptionInt d nm r m
  | .strOpt d nm r m => a.addOptionString d nm r m
  | .multiIntOpt d nm r m => a.addMultiOptionInt d nm r m
  | .multiStrOpt d nm r m => a.addMultiOptionString d nm r m
  | .flagOpt nm m => a.addFlag nm m

/-- Run a sequence of registration calls. -/
def runRegs (a : Argh) (cmds : List RegCmd) : Argh :=
  cmds.foldl applyReg a

/-- The option descriptor a registration command creates on a registry with
delimiter `d`, its cell holding the declared default: the given integer or
text for a scalar, `false` for a flag, and the split-and-coerced default
text for a multi-value option. -/
def cmdOpt (d : Char) : RegCmd → Opt
  | .intOpt dv nm r m =>
    { name := nm, required := r, parsed := false, delim := d, msg := m,
      val := .intCell dv }
  | .strOpt dv nm r m =>
    { name := nm, required := r, parsed := false, delim := d, msg := m,
      val := .strCell dv }
  | .multiIntOpt dv nm r m =>
    { name := nm, required := r, parsed := false, delim := d, msg := m,
      val := .multiIntCell ((getlineSplit d dv).map readIntFromStream) }
  | .multiStrOpt dv nm r m =>
    { name := nm, required := r, parsed := false, delim := d, msg := m,
      val := .multiStrCell (getlineSplit d dv) }
  | .flagOpt nm m =>
    { name := nm, required := false, parsed := false, delim := d, msg := m,
      val := .flagCell false }

/-- The registry of the test suite's scenarios: one integer option
`--intvalue` with default 789. -/
def demoArgh : Argh :=
  (Argh.empty ',').addOptionInt 789 "--intvalue" false "Integer value"

/-- A concrete scalar integer option holding its default 789. -/
def demoIntOpt : Opt :=
  { name := "--intvalue", required := false, parsed := false, delim := ',',
    msg := "", val := .intCell 789 }

/-- A concrete multi-value integer option. -/
def demoMultiIntOpt : Opt :=
  { name := "--multivalue", required := false, parsed := false, delim := ',',
    msg := "", val := .multiIntCell [1, 2, 3] }

/-- A concrete multi-value text option. -/
def demoMultiStrOpt : Opt :=
  { name := "--multistringvalue", required := false, parsed := false, delim := ',',
    msg := "", val := .multiStrCell ["one", "two", "three"] }

/-- A registry whose single option has already been seen. -/
def demoParsedArgh : Argh :=
  { delim := ',',
    options := [{ name := "--intvalue", required := false, parsed := true,
                  delim := ',', msg := "", val := .intCell 5 }],
    remainingArgs := [] }

example : getlineSplit ',' "1,2" = ["1", "2"] := by decide
example : getlineSplit ',' "1," = ["1"] := by decide
example : getlineSplit ',' "" = [] := by decide
example : getlineSplit ',' "," = [""] := by decide
example : getlineSplit ',' ",a" = ["", "a"] := by decide
example : readIntFromStream " -42x" = -42 := by decide
example : readIntFromStream "abc" = 0 := by decide
example : readIntFromStream "" = 0 := by decide
example :
    (((Argh.empty ',').addOptionInt 789 "--intvalue" false "").parse
      ["--intvalue", "123"]).options.map Opt.val = [.intCell 123] := by decide
example :
    (((Argh.empty ',').parse ["x"]).parse ["y"]).remainingArgs = ["x", "y"] := by
  decide

theorem setValueOpt_name (o : Opt) (s : String) : (setValueOpt o s).name = o.name := rfl

theorem setValueOpt_delim (o : Opt) (s : String) : (setValueOpt o s).delim = o.delim := rfl

theorem setValueOpt_parsed (o : Opt) (s : String) : (setValueOpt o s).parsed = o.parsed := rfl

theorem setParsedOpt_name (o : Opt) (p : Bool) : (setParsedOpt o p).name = o.name := by
  cases o with
  | mk nm req pd dl ms v => cases v <;> rfl

theorem setParsedOpt_delim (o : Opt) (p : Bool) : (setParsedOpt o p).delim = o.delim := by
  cases o with
  | mk nm req pd dl ms v => cases v <;> rfl

theorem setParsedOpt_parsed (o : Opt) (p : Bool) : (setParsedOpt o p).parsed = p := by
  cases o with
  | mk nm req pd dl ms v => cases v <;> rfl

theorem parseOptAt_name (ts : List String) (i : Nat) (o : Opt) :
    (parseOptAt ts i o).name = o.name := by
  unfold parseOptAt
  split
  · split
    · rw [setValueOpt_name, setParsedOpt_name]
    · rw [setParsedOpt_name]
  · rfl

theorem cellWrite_cellWrite (d : Char) (c : OptVal) (s1 s2 : String) :
    cellWrite d (cellWrite d c s1) s2 = cellWrite d c s2 := by
  cases c <;> rfl

theorem parseInnerStep_fst (ts : List String) (i : Nat)
    (st : List Opt × List Bool) (o : Opt) :
    (parseInnerStep ts i st o).1 = st.1 ++ [parseOptAt ts i o] := by
  unfold parseInnerStep parseOptAt
  split
  · split <;> rfl
  · rfl

theorem parseInnerStep_snd (ts : List String) (i : Nat)
    (st : List Opt × List Bool) (o : Opt) :
    (parseInnerStep ts i st o).2 =
      if ts.getD i "" = o.name then maskMark ts i st.2 else st.2 := by
  unfold parseInnerStep maskMark
  split
  · split <;> rfl
  · rfl

theorem parseInner_fold_fst (ts : List String) (i : Nat) :
    ∀ (os : List Opt) (st : List Opt × List Bool),
      (os.foldl (parseInnerStep ts i) st).1 = st.1 ++ os.map (parseOptAt ts i) := by
  intro os
  induction os with
  | nil => intro st; simp
  | cons o os ih =>
    intro st
    rw [List.foldl_cons, ih, parseInnerStep_fst]
    simp

theorem parseInner_fst (ts : List String) (i : Nat) (os : List Opt) (mask : List Bool) :
    (parseInner ts i os mask).1 = os.map (parseOptAt ts i) := by
  unfold parseInner
  rw [parseInner_fold_fst]
  simp

theorem maskMark_idem (ts : List String) (i : Nat) (m : List Bool) :
    maskMark ts i (maskMark ts i m) = maskMark ts i m := by
  unfold maskMark
  split
  · have h1 : ((m.set i true).set (i + 1) true).set i true
        = (m.set i true).set (i + 1) true := by
      rw [List.set_comm true true (m.set i true) (Nat.succ_ne_self i),
        List.set_set]
    rw [h1, List.set_set]
  · rw [List.set_set]

theorem matchTok_nil (ts : List String) (i : Nat) : matchTok [] ts i = false := rfl

theorem matchTok_cons (o : Opt) (os : List Opt) (ts : List String) (i : Nat) :
    matchTok (o :: os) ts i = (decide (ts.getD i "" = o.name) || matchTok os ts i) := by
  unfold matchTok
  rw [List.any_cons]

theorem parseInner_fold_snd (ts : List String) (i : Nat) :
    ∀ (os : List Opt) (st : List Opt × List Bool),
      (os.foldl (parseInnerStep ts i) st).2 =
        if matchTok os ts i then maskMark ts i st.2 else st.2 := by
  intro os
  induction os with
  | nil => intro st; simp [matchTok_nil]
  | cons o os ih =>
    intro st
    rw [List.foldl_cons, ih, parseInnerStep_snd, matchTok_cons]
    by_cases ho : ts.getD i "" = o.name
    · rw [if_pos ho]
      by_cases hrest : matchTok os ts i
      · rw [if_pos hrest, maskMark_idem,
          if_pos (by rw [decide_eq_true ho, Bool.true_or])]
      · rw [if_neg hrest, if_pos (by rw [decide_eq_true ho, Bool.true_or])]
    · rw [if_neg ho]
      by_cases hrest : matchTok os ts i
      · rw [if_pos hrest,
          if_pos (by rw [decide_eq_false ho, Bool.false_or]; exact hrest)]
      · rw [if_neg hrest,
          if_neg (by rw [decide_eq_false ho, Bool.false_or]; exact hrest)]

theorem parseInner_snd (ts : List String) (i : Nat) (os : List Opt) (mask : List Bool) :
    (parseInner ts i os mask).2 =
      if matchTok os ts i then maskMark ts i mask else mask := by
  unfold parseInner
  rw [parseInner_fold_snd]

theorem matchTok_map_parseOptAt (os : List Opt) (ts : List String) (k i : Nat) :
    matchTok (os.map (parseOptAt ts k)) ts i = matchTok os ts i := by
  induction os with
  | nil => rfl
  | cons o os ih =>
    rw [List.map_cons, matchTok_cons, matchTok_cons, ih, parseOptAt_name]

theorem parse_fold_fst (ts : List String) :
    ∀ (l : List Nat) (p : List Opt × List Bool),
      (l.foldl (fun st i => parseInner ts i st.1 st.2) p).1 =
        l.foldl (fun os i => os.map (parseOptAt ts i)) p.1 := by
  intro l
  induction l with
  | nil => intro p; rfl
  | cons i l ih =>
    intro p
    rw [List.foldl_cons, List.foldl_cons, ih]
    congr 1
    rw [parseInner_fst]

theorem parse_fold_snd (ts : List String) :
    ∀ (l : List Nat) (p : List Opt × List Bool),
      (l.foldl (fun st i => parseInner ts i st.1 st.2) p).2 =
        l.foldl (fun m i => if matchTok p.1 ts i then maskMark ts i m else m) p.2 := by
  intro l
  induction l with
  | nil => intro p; rfl
  | cons i l ih =>
    intro p
    rw [List.foldl_cons, List.foldl_cons, ih]
    have h2 : (fun (m : List Bool) j =>
        if matchTok (parseInner ts i p.1 p.2).1 ts j then maskMark ts j m else m)
        = (fun (m : List Bool) j => if matchTok p.1 ts j then maskMark ts j m else m) := by
      funext m j
      rw [parseInner_fst, matchTok_map_parseOptAt]
    rw [h2]
    congr 1
    rw [parseInner_snd]

theorem foldl_map_parseOptAt (ts : List String) :
    ∀ (l : List Nat) (os : List Opt),
      l.foldl (fun os i => os.map (parseOptAt ts i)) os =
        os.map (fun o => l.foldl (fun o i => parseOptAt ts i o) o) := by
  intro l
  induction l with
  | nil => intro os; simp
  | cons i l ih =>
    intro os
    rw [List.foldl_cons, ih, List.map_map]
    rfl

theorem parse_options (a : Argh) (ts : List String) :
    (a.parse ts).options = a.options.map (optRun ts) := by
  unfold Argh.parse optRun
  simp only
  rw [parse_fold_fst, foldl_map_parseOptAt]

theorem seenIn_nil (ts : List String) (nm : String) : seenIn ts nm [] = false := rfl

theorem seenIn_cons (ts : List String) (nm : String) (i : Nat) (l : List Nat) :
    seenIn ts nm (i :: l) = (decide (ts.getD i "" = nm) || seenIn ts nm l) := by
  unfold seenIn
  rw [List.any_cons]

theorem lastValIn_cons (ts : List String) (nm : String) (i : Nat) (l : List Nat)
    (acc : Option String) :
    lastValIn ts nm (i :: l) acc =
      lastValIn ts nm l
        (if ts.getD i "" = nm ∧ i + 1 < ts.length then some (ts.getD (i + 1) "")
         else acc) := rfl

theorem lastValIn_acc (ts : List String) (nm : String) :
    ∀ (l : List Nat) (acc : Option String),
      lastValIn ts nm l acc =
        match lastValIn ts nm l none with
        | some s => some s
        | none => acc := by
  intro l
  induction l with
  | nil => intro acc; rfl
  | cons i l ih =>
    intro acc
    rw [lastValIn_cons, lastValIn_cons]
    by_cases h : ts.getD i "" = nm ∧ i + 1 < ts.length
    · rw [if_pos h, if_pos h, ih (some (ts.getD (i + 1) ""))]
      cases lastValIn ts nm l none <;> rfl
    · rw [if_neg h, if_neg h, ih acc]

theorem optRunSpec_step (ts : List String) (i : Nat) (l : List Nat) (o : Opt) :
    optRunSpec ts l (parseOptAt ts i o) = optRunSpec ts (i :: l) o := by
  cases o with
  | mk nm rq pd dl ms v0 =>
    by_cases hm : ts.getD i "" = nm
    · by_cases hs : i + 1 < ts.length
      · cases v0 <;>
          simp only [parseOptAt, setParsedOpt, setValueOpt, cellWrite, optRunSpec,
            seenIn_cons, lastValIn_cons, decide_eq_true hm, Bool.true_or,
            Bool.or_true, if_pos hm, if_pos hs, if_pos (And.intro hm hs)] <;>
          rw [lastValIn_acc ts nm l (some (ts.getD (i + 1) ""))] <;>
          (cases hlv : lastValIn ts nm l none <;>
            simp [cellWrite, Bool.or_comm, Bool.or_assoc, Bool.or_left_comm])
      · cases v0 <;>
          simp only [parseOptAt, setParsedOpt, setValueOpt, cellWrite, optRunSpec,
            seenIn_cons, lastValIn_cons, decide_eq_true hm, Bool.true_or,
            Bool.or_true, if_pos hm, if_neg hs,
            if_neg (fun hc : _ ∧ _ => hs hc.2)]
    · cases v0 <;>
        simp only [parseOptAt, optRunSpec, seenIn_cons, lastValIn_cons,
          decide_eq_false hm, Bool.false_or, if_neg hm,
          if_neg (fun hc : _ ∧ _ => hm hc.1)]

theorem optRunOn_spec (ts : List String) :
    ∀ (l : List Nat) (o : Opt),
      l.foldl (fun o i => parseOptAt ts i o) o = optRunSpec ts l o := by
  intro l
  induction l with
  | nil =>
    intro o
    cases o with
    | mk nm rq pd dl ms v0 =>
      cases v0 <;> simp [optRunSpec, seenIn_nil, lastValIn]
  | cons i l ih =>
    intro o
    rw [List.foldl_cons, ih, optRunSpec_step]

theorem optRun_spec (ts : List String) (o : Opt) :
    optRun ts o = optRunSpec ts (List.range ts.length) o := by
  unfold optRun
  rw [optRunOn_spec]

theorem seenIn_eq_false (ts : List String) (nm : String) (l : List Nat)
    (h : ∀ i ∈ l, ts.getD i "" ≠ nm) : seenIn ts nm l = false := by
  unfold seenIn
  rw [List.any_eq_false]
  intro i hi
  simp only [decide_eq_true_eq]
  exact h i hi

theorem lastValIn_id (ts : List String) (nm : String) :
    ∀ (l : List Nat) (acc : Option String),
      (∀ i ∈ l, ¬(ts.getD i "" = nm ∧ i + 1 < ts.length)) →
      lastValIn ts nm l acc = acc := by
  intro l
  induction l with
  | nil => intro acc _; rfl
  | cons i l ih =>
    intro acc h
    rw [lastValIn_cons, if_neg (h i (List.mem_cons_self i l))]
    exact ih acc (fun k hk => h k (List.mem_cons_of_mem i hk))

theorem optRunSpec_id (ts : List String) (l : List Nat) (o : Opt)
    (hseen : seenIn ts o.name l = false)
    (hlast : lastValIn ts o.name l none = none) :
    optRunSpec ts l o = o := by
  cases o with
  | mk nm rq pd dl ms v0 =>
    simp only at hseen hlast
    cases v0 <;> simp [optRunSpec, hseen, hlast]

theorem optRun_unmatched (ts : List String) (o : Opt)
    (h : ∀ i, i < ts.length → ts.getD i "" ≠ o.name) : optRun ts o = o := by
  rw [optRun_spec]
  apply optRunSpec_id
  · exact seenIn_eq_false ts o.name _ (fun i hi => h i (List.mem_range.mp hi))
  · exact lastValIn_id ts o.name _ none
      (fun i hi hc => h i (List.mem_range.mp hi) hc.1)

theorem optRunSpec_idem (ts : List String) (l : List Nat) (o : Opt) :
    optRunSpec ts l (optRunSpec ts l o) = optRunSpec ts l o := by
  cases o with
  | mk nm rq pd dl ms v0 =>
    cases v0 <;>
      cases hlv : lastValIn ts nm l none <;>
        simp [optRunSpec, hlv, cellWrite, Bool.or_assoc, Bool.or_self]

theorem optRun_idem (ts : List String) (o : Opt) :
    optRun ts (optRun ts o) = optRun ts o := by
  rw [optRun_spec ts o, optRun_spec ts (optRunSpec ts (List.range ts.length) o)]
  exact optRunSpec_idem ts (List.range ts.length) o

theorem optRun_parsed (ts : List String) (o : Opt) :
    (optRun ts o).parsed = (o.parsed || seenIn ts o.name (List.range ts.length)) := by
  rw [optRun_spec]
  rfl

theorem maskMark_length (ts : List String) (i : Nat) (m : List Bool) :
    (maskMark ts i m).length = m.length := by
  unfold maskMark
  split <;> simp

theorem getD_set_self {α : Type} (l : List α) (i : Nat) (x d : α) (h : i < l.length) :
    (l.set i x).getD i d = x := by
  rw [List.getD_eq_getElem?_getD, List.getElem?_set]
  simp [h]

theorem getD_set_ne {α : Type} (l : List α) (i j : Nat) (x d : α) (h : i ≠ j) :
    (l.set i x).getD j d = l.getD j d := by
  rw [List.getD_eq_getElem?_getD, List.getD_eq_getElem?_getD, List.getElem?_set,
    if_neg h]

theorem maskMark_getD (ts : List String) (i : Nat) (m : List Bool) (j : Nat)
    (hm : m.length = ts.length) (hi : i < ts.length) :
    (maskMark ts i m).getD j false =
      (m.getD j false ||
        (decide (j = i) || (decide (j = i + 1) && decide (i + 1 < ts.length)))) := by
  unfold maskMark
  by_cases h1 : i + 1 < ts.length
  · rw [if_pos h1]
    by_cases h2 : j = i + 1
    · subst h2
      rw [getD_set_self _ _ _ _ (by rw [List.length_set, hm]; exact h1)]
      simp [h1, Nat.succ_ne_self i]
    · rw [getD_set_ne _ _ _ _ _ (fun he => h2 he.symm)]
      by_cases h3 : j = i
      · subst h3
        rw [getD_set_self _ _ _ _ (by rw [hm]; exact hi)]
        simp
      · rw [getD_set_ne _ _ _ _ _ (fun he => h3 he.symm)]
        simp [h2, h3]
  · rw [if_neg h1]
    by_cases h3 : j = i
    · subst h3
      rw [getD_set_self _ _ _ _ (by rw [hm]; exact hi)]
      simp
    · rw [getD_set_ne _ _ _ _ _ (fun he => h3 he.symm)]
      simp [h1, h3]

theorem maskFold_getD (ts : List String) (os : List Opt) :
    ∀ (l : List Nat) (m : List Bool), m.length = ts.length →
      (∀ i ∈ l, i < ts.length) → ∀ (j : Nat),
      (l.foldl (fun m i => if matchTok os ts i then maskMark ts i m else m) m).getD j false
        = (m.getD j false ||
            l.any (fun i => matchTok os ts i &&
              (decide (j = i) || (decide (j = i + 1) && decide (i + 1 < ts.length))))) := by
  intro l
  induction l with
  | nil => intro m hm hl j; simp
  | cons i l ih =>
    intro m hm hl j
    rw [List.foldl_cons, List.any_cons]
    have hi : i < ts.length := hl i (List.mem_cons_self i l)
    have hlen : (if matchTok os ts i then maskMark ts i m else m).length = ts.length := by
      split
      · rw [maskMark_length, hm]
      · exact hm
    rw [ih _ hlen (fun k hk => hl k (List.mem_cons_of_mem i hk)) j]
    by_cases hmt : matchTok os ts i
    · rw [if_pos hmt, maskMark_getD ts i m j hm hi, hmt]
      simp [Bool.or_assoc]
    · rw [if_neg hmt]
      have hf : matchTok os ts i = false := by
        cases hb : matchTok os ts i
        · rfl
        · exact absurd hb hmt
      rw [hf]
      simp

theorem replicate_getD_false (n j : Nat) :
    (List.replicate n false).getD j false = false := by
  rw [List.getD_eq_getElem?_getD, List.getElem?_replicate]
  split <;> rfl

theorem range_any_mark (os : List Opt) (ts : List String) (j : Nat)
    (hj : j < ts.length) :
    ((List.range ts.length).any (fun i => matchTok os ts i &&
        (decide (j = i) || (decide (j = i + 1) && decide (i + 1 < ts.length)))))
      = (matchTok os ts j || (decide (0 < j) && matchTok os ts (j - 1))) := by
  rw [Bool.eq_iff_iff]
  simp only [List.any_eq_true, List.mem_range, Bool.and_eq_true, Bool.or_eq_true,
    decide_eq_true_eq]
  constructor
  · rintro ⟨i, hilt, hmt, hcase⟩
    rcases hcase with rfl | ⟨hj1, hs⟩
    · exact Or.inl hmt
    · refine Or.inr ⟨by omega, ?_⟩
      have hji : j - 1 = i := by omega
      rw [hji]
      exact hmt
  · rintro (hmt | ⟨h0, hmt⟩)
    · exact ⟨j, hj, hmt, Or.inl rfl⟩
    · exact ⟨j - 1, by omega, hmt, Or.inr ⟨by omega, by omega⟩⟩

theorem parse_remaining_append (a : Argh) (ts : List String) :
    (a.parse ts).getRemainingArguments =
      a.getRemainingArguments ++ unmatchedTokens a.options ts := by
  unfold Argh.parse Argh.getRemainingArguments unmatchedTokens
  simp only
  congr 1
  congr 1
  apply List.filter_congr
  intro i hi
  rw [List.mem_range] at hi
  rw [parse_fold_snd]
  have hp1 : ((a.options, List.replicate ts.length false) : List Opt × List Bool).1
      = a.options := rfl
  have hp2 : ((a.options, List.replicate ts.length false) : List Opt × List Bool).2
      = List.replicate ts.length false := rfl
  rw [hp1, hp2]
  rw [maskFold_getD ts a.options (List.range ts.length)
      (List.replicate ts.length false) (by simp)
      (fun k hk => List.mem_range.mp hk) i]
  rw [replicate_getD_false, Bool.false_or, range_any_mark a.options ts i hi]

theorem parse_nil (a : Argh) : a.parse [] = a := by
  unfold Argh.parse
  simp

theorem modifyHead_nilrev {α : Type} (l : List (List α)) :
    List.modifyHead (fun s => List.reverse ([] : List α) ++ s) l = l := by
  cases l <;> rfl

theorem splitEvery_ne_nil (d : Char) (cs : List Char) : splitEvery d cs ≠ [] := by
  cases cs with
  | nil => simp [splitEvery]
  | cons c cs =>
    unfold splitEvery
    split
    · simp
    · cases h : splitEvery d cs <;> simp [h]

theorem splitEvery_last_delim (d : Char) :
    ∀ (cs : List Char), cs.getLast? = some d →
      ∃ s ss, splitEvery d cs = s :: ss ∧ ss ≠ []
  | [], h => by simp at h
  | [c], h => by
    rw [List.getLast?_singleton] at h
    have hc : c = d := Option.some.inj h
    subst hc
    exact ⟨[], [[]], by simp [splitEvery], by simp⟩
  | c :: c2 :: cs, h => by
    rw [List.getLast?_cons_cons] at h
    by_cases hc : c = d
    · refine ⟨[], splitEvery d (c2 :: cs), ?_, splitEvery_ne_nil d (c2 :: cs)⟩
      rw [splitEvery, if_pos hc]
    · obtain ⟨s, ss, hs, hss⟩ := splitEvery_last_delim d (c2 :: cs) h
      refine ⟨c :: s, ss, ?_, hss⟩
      rw [splitEvery, if_neg hc, hs]

theorem getlineCore_eq (d : Char) :
    ∀ (cs acc : List Char),
      getlineCore d cs acc =
        List.modifyHead (fun t => acc.reverse ++ t)
          (if cs.getLast? = some d then (splitEvery d cs).dropLast
           else splitEvery d cs)
  | [], acc => by
    simp [getlineCore, splitEvery]
  | [c], acc => by
    by_cases hc : c = d
    · subst hc
      simp [getlineCore, splitEvery]
    · simp [getlineCore, splitEvery, hc]
  | c :: c2 :: cs, acc => by
    have hsplitcons : ∀ (x : Char), x = d →
        splitEvery d (x :: c2 :: cs) = [] :: splitEvery d (c2 :: cs) := by
      intro x hx
      rw [splitEvery, if_pos hx]
    by_cases hc : c = d
    · rw [show getlineCore d (c :: c2 :: cs) acc
          = acc.reverse :: getlineCore d (c2 :: cs) [] from by
            rw [getlineCore, if_pos hc]]
      rw [getlineCore_eq d (c2 :: cs) []]
      rw [hsplitcons c hc, List.getLast?_cons_cons]
      have hsp := splitEvery_ne_nil d (c2 :: cs)
      by_cases h2 : (c2 :: cs).getLast? = some d
      · rw [if_pos h2, if_pos h2, List.dropLast_cons_of_ne_nil hsp, modifyHead_nilrev]
        simp
      · rw [if_neg h2, if_neg h2, modifyHead_nilrev]
        simp
    · rw [show getlineCore d (c :: c2 :: cs) acc
          = getlineCore d (c2 :: cs) (c :: acc) from by
            rw [getlineCore, if_neg hc]]
      rw [getlineCore_eq d (c2 :: cs) (c :: acc)]
      rw [List.getLast?_cons_cons]
      obtain ⟨s, ss, hsp⟩ : ∃ s ss, splitEvery d (c2 :: cs) = s :: ss := by
        cases h : splitEvery d (c2 :: cs) with
        | nil => exact absurd h (splitEvery_ne_nil d (c2 :: cs))
        | cons s ss => exact ⟨s, ss, rfl⟩
      have hsplit : splitEvery d (c :: c2 :: cs) = (c :: s) :: ss := by
        rw [splitEvery, if_neg hc, hsp]
      by_cases h2 : (c2 :: cs).getLast? = some d
      · obtain ⟨s', ss', hs', hss'⟩ := splitEvery_last_delim d (c2 :: cs) h2
        have hssne : ss ≠ [] := by
          rw [hsp] at hs'
          injection hs' with hhead htail
          rw [htail]
          exact hss'
        rw [if_pos h2, if_pos h2, hsp, hsplit,
          List.dropLast_cons_of_ne_nil hssne, List.dropLast_cons_of_ne_nil hssne]
        simp
      · rw [if_neg h2, if_neg h2, hsp, hsplit]
        simp

theorem getlineSplit_amended (d : Char) (s : String) :
    getlineSplit d s = (amendedSegs d s).map (fun seg => String.mk seg) := by
  unfold getlineSplit amendedSegs
  cases hcs : s.toList with
  | nil => simp
  | cons c cs =>
    show (getlineCore d (c :: cs) []).map (fun seg => String.mk seg)
      = (if (c :: cs : List Char) = [] then []
         else if (c :: cs).getLast? = some d then (splitEvery d (c :: cs)).dropLast
         else splitEvery d (c :: cs)).map (fun seg => String.mk seg)
    rw [getlineCore_eq d (c :: cs) [], modifyHead_nilrev,
      if_neg (List.cons_ne_nil c cs)]

theorem applyReg_delim (a : Argh) (c : RegCmd) : (applyReg a c).delim = a.delim := by
  cases c <;> rfl

theorem applyReg_options (a : Argh) (c : RegCmd) :
    (applyReg a c).options = a.options ++ [cmdOpt a.delim c] := by
  cases c <;> rfl

theorem runRegs_options :
    ∀ (cmds : List RegCmd) (a : Argh),
      (runRegs a cmds).options = a.options ++ cmds.map (cmdOpt a.delim) ∧
      (runRegs a cmds).delim = a.delim := by
  intro cmds
  induction cmds with
  | nil => intro a; simp [runRegs]
  | cons c cmds ih =>
    intro a
    unfold runRegs at *
    rw [List.foldl_cons]
    obtain ⟨h1, h2⟩ := ih (applyReg a c)
    constructor
    · rw [h1, applyReg_options, applyReg_delim, List.append_assoc]
      rfl
    · rw [h2, applyReg_delim]

theorem parse_options_get (a : Argh) (ts : List String) (j : Nat) :
    (a.parse ts).options[j]? = (a.options[j]?).map (optRun ts) := by
  rw [parse_options, List.getElem?_map]

/-- C1 counterexample: with no registered options, two successive parse
calls leave both calls' tokens in the remainder — the remainder after the
last call is `["x", "y"]`, not the most recent call's `["y"]` that the
claim requires, so the remainder is not cleared and rebuilt per call. -/
theorem claim1_counterexample :
    (((Argh.empty ',').parse ["x"]).parse ["y"]).getRemainingArguments = ["x", "y"] ∧
    (((Argh.empty ',').parse ["x"]).parse ["y"]).getRemainingArguments ≠ ["y"] := by
  constructor
  · decide
  · decide

/-- C1 (amended): after any parse call, `getRemainingArguments` equals the
registry's previous remainder followed by exactly this call's tokens that
neither matched a registered option name nor immediately followed a matched
name token; the remainder is appended to on every parse call and never
cleared, so across calls it accumulates each call's unmatched tokens. -/
theorem claim1_remainder_accumulates (a : Argh) (ts : List String) :
    (a.parse ts).getRemainingArguments =
      a.getRemainingArguments ++ unmatchedTokens a.options ts :=
  parse_remaining_append a ts

/-- C2 counterexample: for a multi-value integer option with delimiter `,`,
`setValue "1,"` stores `[1]`: splitting on *every* occurrence of the
delimiter would give the segments `"1"` and `""` and hence the elements
`[1, 0]`, but the empty segment after the trailing delimiter yields no
element. -/
theorem claim2_counterexample :
    (setValueOpt demoMultiIntOpt "1,").val = OptVal.multiIntCell [1] ∧
    (setValueOpt demoMultiIntOpt "1,").val ≠
      OptVal.multiIntCell ((splitEvery ',' "1,".toList).map
        (fun seg => readIntFromStream (String.mk seg))) := by
  constructor
  · decide
  · decide

/-- C2 (amended): `setValue` on a multi-value option fully replaces the
bound sequence with one element per segment of the delimiter split, where
the split is cut at every delimiter occurrence *except* that empty text
yields no segments and the empty segment after a trailing delimiter yields
no segment; interior empty segments yield a zero element for the numeric
element type and an empty string for the text element type (the segment
text is fed through the same stream extraction as scalar values). -/
theorem claim2_multi_split (o : Opt) (s : String) :
    (∀ xs, o.val = OptVal.multiIntCell xs →
      (setValueOpt o s).val =
        OptVal.multiIntCell ((amendedSegs o.delim s).map
          (fun seg => readIntFromStream (String.mk seg)))) ∧
    (∀ ys, o.val = OptVal.multiStrCell ys →
      (setValueOpt o s).val =
        OptVal.multiStrCell ((amendedSegs o.delim s).map
          (fun seg => String.mk seg))) := by
  constructor
  · intro xs hx
    simp only [setValueOpt, hx, cellWrite]
    rw [getlineSplit_amended, List.map_map]
    rfl
  · intro ys hy
    simp only [setValueOpt, hy, cellWrite]
    rw [getlineSplit_amended]

/-- Witness for the amended C2 theorem at concrete inputs: `"1,,2"` with
delimiter `,` becomes `[1, 0, 2]` (interior empty segment gives zero), and
`"a,b,"` becomes `["a", "b"]` (trailing delimiter gives no element). -/
theorem claim2_multi_split_witness :
    (setValueOpt demoMultiIntOpt "1,,2").val = OptVal.multiIntCell [1, 0, 2] ∧
    (setValueOpt demoMultiStrOpt "a,b,").val = OptVal.multiStrCell ["a", "b"] := by
  constructor
  · rw [(claim2_multi_split demoMultiIntOpt "1,,2").1 [1, 2, 3] (by decide)]
    decide
  · rw [(claim2_multi_split demoMultiStrOpt "a,b,").2 ["one", "two", "three"]
      (by decide)]
    decide

/-- C3 counterexample: a scalar integer option whose cell holds its default
789 receives the unconvertible value text `"abc"`; the cell becomes 0 (the
C++11 stream-extraction failure value), not its previous value 789 as the
claim states. -/
theorem claim3_counterexample :
    (setValueOpt demoIntOpt "abc").val = OptVal.intCell 0 ∧
    (setValueOpt demoIntOpt "abc").val ≠ OptVal.intCell 789 := by
  constructor
  · decide
  · decide

/-- C3 (amended): for a scalar integer option, applying a value string that
fails to convert writes zero into the bound cell (C++11 stream extraction
stores 0 on failure); nothing else about the option changes and no error
signal of any kind is raised (the operation is total). -/
theorem claim3_failed_conversion_zeroes (o : Opt) (v : Int) (s : String)
    (hk : o.val = OptVal.intCell v) (hf : intConvFails s = true) :
    (setValueOpt o s).val = OptVal.intCell 0 ∧
    (setValueOpt o s).parsed = o.parsed ∧
    (setValueOpt o s).name = o.name := by
  refine ⟨?_, rfl, rfl⟩
  simp only [setValueOpt, hk, cellWrite]
  unfold intConvFails at hf
  unfold readIntFromStream readIntChars
  rw [if_pos hf]

/-- Witness for the amended C3 theorem: the demo integer option with
default 789 receives `"xyz"` and its cell becomes 0 while `parsed` and
`name` are untouched. -/
theorem claim3_failed_conversion_zeroes_witness :
    (setValueOpt demoIntOpt "xyz").val = OptVal.intCell 0 ∧
    (setValueOpt demoIntOpt "xyz").parsed = demoIntOpt.parsed ∧
    (setValueOpt demoIntOpt "xyz").name = demoIntOpt.name :=
  claim3_failed_conversion_zeroes demoIntOpt 789 "xyz" (by decide) (by decide)

/-- C10: applying the empty string as a multi-value option's value leaves
the bound sequence empty — the sequence is cleared and the `getline` split
of empty text produces no segments — both when `setValue` receives `""`
directly and when a multi-value option is registered with empty default
text. -/
theorem claim10_empty_value_clears (o : Opt) :
    (∀ xs, o.val = OptVal.multiIntCell xs →
      (setValueOpt o "").val = OptVal.multiIntCell []) ∧
    (∀ ys, o.val = OptVal.multiStrCell ys →
      (setValueOpt o "").val = OptVal.multiStrCell []) ∧
    (∀ (a : Argh) (nm ms : String) (r : Bool),
      ((a.addMultiOptionInt "" nm r ms).options.getLast?).map Opt.val =
        some (OptVal.multiIntCell []) ∧
      ((a.addMultiOptionString "" nm r ms).options.getLast?).map Opt.val =
        some (OptVal.multiStrCell [])) := by
  have hsplit : ∀ d : Char, getlineSplit d "" = [] := fun d => rfl
  refine ⟨?_, ?_, ?_⟩
  · intro xs hx
    simp [setValueOpt, hx, cellWrite, hsplit]
  · intro ys hy
    simp [setValueOpt, hy, cellWrite, hsplit]
  · intro a nm ms r
    constructor <;>
      simp [Argh.addMultiOptionInt, Argh.addMultiOptionString,
        List.getLast?_concat, hsplit]

/-- Witness for C10 at concrete options: both demo multi-value options end
up with an empty sequence after `setValue ""`. -/
theorem claim10_empty_value_clears_witness :
    (setValueOpt demoMultiIntOpt "").val = OptVal.multiIntCell [] ∧
    (setValueOpt demoMultiStrOpt "").val = OptVal.multiStrCell [] :=
  ⟨(claim10_empty_value_clears demoMultiIntOpt).1 [1, 2, 3] (by decide),
   (claim10_empty_value_clears demoMultiStrOpt).2.1 ["one", "two", "three"]
     (by decide)⟩

/-- C4: loading a config source with lines `--intvalue`, `123` sets the
bound cell to 123 and marks the option parsed; a later parse of
`["--intvalue", "456"]` overrides the cell to 456 while `isParsed` stays
true; and in general an option whose name matches no token of a parse call
is left completely unchanged by that call, so later calls strictly override
matched options and unmatched options keep their most recent value. -/
theorem claim4_file_then_args_override :
    ((demoArgh.load (some ["--intvalue", "123"])).2 = true ∧
     (demoArgh.load (some ["--intvalue", "123"])).1.options.map Opt.val
        = [OptVal.intCell 123] ∧
     (demoArgh.load (some ["--intvalue", "123"])).1.isParsed "--intvalue" = true ∧
     ((demoArgh.load (some ["--intvalue", "123"])).1.parse
        ["--intvalue", "456"]).options.map Opt.val = [OptVal.intCell 456] ∧
     ((demoArgh.load (some ["--intvalue", "123"])).1.parse
        ["--intvalue", "456"]).isParsed "--intvalue" = true) ∧
    (∀ (a : Argh) (ts : List String) (j : Nat) (o : Opt),
      a.options[j]? = some o →
      (∀ i, i < ts.length → ts.getD i "" ≠ o.name) →
      (a.parse ts).options[j]? = some o) := by
  constructor
  · exact ⟨by decide, by decide, by decide, by decide, by decide⟩
  · intro a ts j o ho hn
    rw [parse_options_get, ho]
    simp [optRun_unmatched ts o hn]

/-- Witness for C4's quantified part: a parse call whose tokens never
mention `--intvalue` leaves the registered option untouched. -/
theorem claim4_file_then_args_override_witness :
    (demoArgh.parse ["--other", "7"]).options[0]? =
      some { name := "--intvalue", required := false, parsed := false,
             delim := ',', msg := "Integer value", val := OptVal.intCell 789 } :=
  claim4_file_then_args_override.2 demoArgh ["--other", "7"] 0
    { name := "--intvalue", required := false, parsed := false, delim := ',',
      msg := "Integer value", val := OptVal.intCell 789 }
    (by decide) (by decide)

/-- C5: after any sequence of registrations on a fresh registry and before
any parse, the option list is exactly the registered descriptors, each one
unseen and with its bound cell equal to its declared default: the given
value for scalar options, `false` for flags, and the split-and-coerced
default text for multi-value options (see `cmdOpt`). -/
theorem claim5_defaults_after_registration (d : Char) (cmds : List RegCmd) :
    (runRegs (Argh.empty d) cmds).options = cmds.map (cmdOpt d) ∧
    (runRegs (Argh.empty d) cmds).options.map Opt.val =
      cmds.map (fun c => (cmdOpt d c).val) := by
  have h := (runRegs_options cmds (Argh.empty d)).1
  have h1 : (runRegs (Argh.empty d) cmds).options = cmds.map (cmdOpt d) := by
    rw [h]
    rfl
  exact ⟨h1, by rw [h1, List.map_map]; rfl⟩

/-- C6: when a scalar option's name occurs only as the very last token of a
parse call (so no following token exists), the option comes out marked
parsed but with its bound cell — and every other field — unchanged; no
error is raised (parse is total). -/
theorem claim6_dangling_name (a : Argh) (ts : List String) (j : Nat) (o : Opt)
    (ho : a.options[j]? = some o)
    (hscalar : (∃ v, o.val = OptVal.intCell v) ∨ (∃ w, o.val = OptVal.strCell w))
    (hlast : ts.getLast? = some o.name)
    (hbefore : ∀ i, i + 1 < ts.length → ts.getD i "" ≠ o.name) :
    (a.parse ts).options[j]? = some { o with parsed := true } := by
  have hne : ts ≠ [] := by
    intro h
    rw [h] at hlast
    simp at hlast
  have hlen : 0 < ts.length := List.length_pos.mpr hne
  have hmatch : ts.getD (ts.length - 1) "" = o.name := by
    rw [List.getD_eq_getElem?_getD, ← List.getLast?_eq_getElem?, hlast]
    rfl
  have hseen : seenIn ts o.name (List.range ts.length) = true := by
    unfold seenIn
    rw [List.any_eq_true]
    exact ⟨ts.length - 1, List.mem_range.mpr (by omega), decide_eq_true hmatch⟩
  have hlv : lastValIn ts o.name (List.range ts.length) none = none := by
    apply lastValIn_id
    intro i hi hc
    exact hbefore i hc.2 hc.1
  have hrun : optRun ts o = { o with parsed := true } := by
    rw [optRun_spec]
    cases o with
    | mk nm rq pd dl ms v0 =>
      simp only at hseen hlv
      rcases hscalar with ⟨v, hv⟩ | ⟨w, hw⟩
      · have hv0 : v0 = OptVal.intCell v := hv
        subst hv0
        simp [optRunSpec, hseen, hlv]
      · have hv0 : v0 = OptVal.strCell w := hw
        subst hv0
        simp [optRunSpec, hseen, hlv]
  rw [parse_options_get, ho]
  simp [hrun]

/-- Witness for C6: parsing `["--intvalue"]` on the demo registry marks the
option parsed and keeps the default 789 in the cell. -/
theorem claim6_dangling_name_witness :
    (demoArgh.parse ["--intvalue"]).options[0]? =
      some { name := "--intvalue", required := false, parsed := true,
             delim := ',', msg := "Integer value", val := OptVal.intCell 789 } :=
  claim6_dangling_name demoArgh ["--intvalue"] 0
    { name := "--intvalue", required := false, parsed := false, delim := ',',
      msg := "Integer value", val := OptVal.intCell 789 }
    (by decide) (Or.inl ⟨789, by decide⟩) (by decide)
    (by intro i hi; simp at hi)

/-- C7: `load` on an unopenable source returns failure and leaves the whole
registry — every option's seen status, every bound cell and the remainder —
exactly as it was; a source that opens but has no lines is a successful
no-op parse; and `load` succeeds on every readable source, so failure
happens exactly when the source cannot be opened. -/
theorem claim7_load_failure (a : Argh) :
    a.load none = (a, false) ∧
    a.load (some []) = (a, true) ∧
    (∀ lines : List String, (a.load (some lines)).2 = true) := by
  refine ⟨rfl, ?_, fun lines => rfl⟩
  show (a.parse [], true) = (a, true)
  rw [parse_nil]

/-- C8: an option's seen flag is monotonic under every public operation —
once `parsed` is true, it stays true after any `parse`, `parseEnv` or
`load` call — and every option produced by a registration sequence on a
fresh registry starts with `parsed = false`. -/
theorem claim8_seen_monotonic :
    (∀ (a : Argh) (ts : List String) (j : Nat) (o : Opt),
      a.options[j]? = some o → o.parsed = true →
      ∃ o2, (a.parse ts).options[j]? = some o2 ∧ o2.parsed = true) ∧
    (∀ (a : Argh) (env : String → Option String) (j : Nat) (o : Opt),
      a.options[j]? = some o → o.parsed = true →
      ∃ o2, (a.parseEnv env).options[j]? = some o2 ∧ o2.parsed = true) ∧
    (∀ (a : Argh) (file : Option (List String)) (j : Nat) (o : Opt),
      a.options[j]? = some o → o.parsed = true →
      ∃ o2, (a.load file).1.options[j]? = some o2 ∧ o2.parsed = true) ∧
    (∀ (d : Char) (cmds : List RegCmd) (o : Opt),
      o ∈ (runRegs (Argh.empty d) cmds).options → o.parsed = false) := by
  have hparse : ∀ (a : Argh) (ts : List String) (j : Nat) (o : Opt),
      a.options[j]? = some o → o.parsed = true →
      ∃ o2, (a.parse ts).options[j]? = some o2 ∧ o2.parsed = true := by
    intro a ts j o ho hp
    refine ⟨optRun ts o, ?_, ?_⟩
    · rw [parse_options_get, ho]
      rfl
    · rw [optRun_parsed, hp, Bool.true_or]
  refine ⟨hparse, ?_, ?_, ?_⟩
  · intro a env j o ho hp
    refine ⟨(match env o.name with
      | some s => setValueOpt (setParsedOpt o true) s
      | none => o), ?_, ?_⟩
    · unfold Argh.parseEnv
      simp only [List.getElem?_map, ho]
      rfl
    · cases henv : env o.name with
      | none => simp [henv, hp]
      | some s => simp [henv, setValueOpt_parsed, setParsedOpt_parsed]
  · intro a file j o ho hp
    cases file with
    | none => exact ⟨o, ho, hp⟩
    | some lines => exact hparse a lines j o ho hp
  · intro d cmds o hmem
    rw [(runRegs_options cmds (Argh.empty d)).1] at hmem
    rw [show (Argh.empty d).options = [] from rfl, List.nil_append,
      show (Argh.empty d).delim = d from rfl] at hmem
    obtain ⟨c, hc, hoc⟩ := List.mem_map.mp hmem
    rw [← hoc]
    cases c <;> rfl

/-- Witness for C8: a registry whose option was already seen keeps
`parsed = true` through a parse call on unrelated tokens. -/
theorem claim8_seen_monotonic_witness :
    ∃ o2, (demoParsedArgh.parse ["zzz"]).options[0]? = some o2 ∧
      o2.parsed = true :=
  claim8_seen_monotonic.1 demoParsedArgh ["zzz"] 0
    { name := "--intvalue", required := false, parsed := true, delim := ',',
      msg := "", val := OptVal.intCell 5 } (by decide) (by decide)

/-- C9: parse is idempotent on option state — running the same token list
twice in a row leaves exactly the bound values and seen flags that one run
produces. -/
theorem claim9_parse_idempotent (a : Argh) (ts : List String) :
    ((a.parse ts).parse ts).options = (a.parse ts).options := by
  rw [parse_options (a.parse ts) ts, parse_options a ts, List.map_map]
  have h : optRun ts ∘ optRun ts = optRun ts := funext (fun o => optRun_idem ts o)
  rw [h]
